import Mathlib

/-!
Shallow embedding of `src/main.py` (financial_analyzer).

The program fetches a daily OHLCV price table, appends three indicator
columns derived from the closing price
(`SMA_50 = Close.rolling(window=50).mean()`,
`EMA_21 = Close.ewm(com=21).mean()`,
`Volatility_50 = Close.pct_change().rolling(window=50).std()`),
drops rows containing any missing value, and reports the last 5 rows.

Prices are modelled as exact rationals (`ℚ`); a missing value (NaN) is
modelled as `none : Option ℚ`.  The pandas conventions embedded here:
* `rolling(window=w)` uses the trailing inclusive window of the last `w`
  entries ending at the current index, and with the default
  `min_periods = w` produces a value iff the window holds at least `w`
  non-missing entries;
* `ewm(com=21)` means `alpha = 1/(1+21)` with the default `adjust=True`
  weighting, computed by the running numerator/denominator recurrence
  (a missing output could only arise from a zero weight denominator);
* `pct_change()` yields `none` at index 0 and `C[i]/C[i-1] - 1` after;
* `dropna()` removes a row when any column of the row is missing;
* `tail(5)` keeps the last `min 5 n` rows in order.

Since a sample standard deviation is irrational in general, the
`Volatility_50` column is carried as the exact sample variance
(divisor `n-1`, pandas `ddof=1`) and the displayed standard deviation
is its real square root (`volStd` below); the missingness pattern of
the two is identical since `Option.map` preserves `isSome`.
-/

namespace FinancialAnalyzer

/-- Arithmetic mean of a list of rationals, as computed by pandas
`rolling(...).mean()` on the non-missing window entries. -/
def meanQ (l : List ℚ) : ℚ := l.sum / (l.length : ℚ)

/-- Sample variance with divisor `n-1` (pandas default `ddof = 1`); the
pandas `rolling(...).std()` value is the square root of this. -/
def sampleVarQ (l : List ℚ) : ℚ :=
  (l.map (fun x => (x - meanQ l) ^ 2)).sum / ((l.length : ℚ) - 1)

/-- Trailing inclusive window of the last `w` entries ending at index `i`,
as used by `pandas.Series.rolling(window=w)`. -/
def rollingWindow (w : ℕ) (xs : List (Option ℚ)) (i : ℕ) : List (Option ℚ) :=
  (xs.take (i + 1)).drop (i + 1 - w)

/-- One output cell of a pandas rolling aggregation: with the default
`min_periods = window`, the aggregate `f` of the non-missing entries of
the trailing window is produced iff at least `w` of them are present. -/
def rollingAt (w : ℕ) (f : List ℚ → ℚ) (xs : List (Option ℚ)) (i : ℕ) : Option ℚ :=
  let valid := (rollingWindow w xs i).filterMap id
  if w ≤ valid.length then some (f valid) else none

/-- Whole rolling-aggregation column, index-aligned with the input. -/
def rollingCol (w : ℕ) (f : List ℚ → ℚ) (xs : List (Option ℚ)) : List (Option ℚ) :=
  (List.range xs.length).map (rollingAt w f xs)

/-- The `pandas.Series.pct_change()` of the closing-price column: missing
at index 0, and `C[i]/C[i-1] - 1` at every later index. -/
def pctChange (C : List ℚ) : List (Option ℚ) :=
  (List.range C.length).map
    (fun i => if i = 0 then none else some (C.getD i 0 / C.getD (i - 1) 0 - 1))

/-- Column `SMA_50`: `data['Close'].rolling(window=50).mean()`
(src/main.py line 34). -/
def SMA_50 (C : List ℚ) : List (Option ℚ) := rollingCol 50 meanQ (C.map some)

/-- Column `Volatility_50`:
`data['Close'].pct_change().rolling(window=50).std()` (src/main.py
lines 45-47), carried as the exact sample variance (see header note);
the displayed standard deviation is `volStd`. -/
def Volatility_50 (C : List ℚ) : List (Option ℚ) :=
  rollingCol 50 sampleVarQ (pctChange C)

/-- Running state of the pandas `ewm(adjust=True)` aggregation: at each
step the weighted numerator and the weight sum both decay by `1 - a`
and absorb the new observation with weight 1. -/
def ewmScan (a : ℚ) : List ℚ → ℚ → ℚ → List (ℚ × ℚ)
  | [], _, _ => []
  | x :: xs, num, den =>
    let num' := (1 - a) * num + x
    let den' := (1 - a) * den + 1
    (num', den') :: ewmScan a xs num' den'

/-- The `ewm(...).mean()` column: quotient of the running weighted
numerator by the running weight sum.  A missing output would require a
zero weight sum (the NaN case); it is proved below never to occur. -/
def ewmMean (a : ℚ) (C : List ℚ) : List (Option ℚ) :=
  (ewmScan a C 0 0).map (fun p => if p.2 = 0 then none else some (p.1 / p.2))

/-- Column `EMA_21`: `data['Close'].ewm(com=21).mean()` (src/main.py
line 40); pandas derives `alpha = 1 / (1 + com)` from the center of
mass `com = 21`. -/
def EMA_21 (C : List ℚ) : List (Option ℚ) := ewmMean (1 / (1 + 21)) C

/-- One acquired observation (one row of the yfinance OHLCV table).
The spec's data model guarantees a closing price on every observation,
so `close` is total; the remaining market columns may be missing. -/
structure Row where
  date : ℕ
  openV : Option ℚ
  highV : Option ℚ
  lowV : Option ℚ
  close : ℚ
  volume : Option ℚ
deriving DecidableEq

/-- One enriched row: the acquired observation plus the three appended
indicator columns. -/
structure IndRow where
  base : Row
  sma : Option ℚ
  ema : Option ℚ
  vol : Option ℚ
deriving DecidableEq

/-- Placeholder row used only as the out-of-range default of `List.getD`. -/
def defaultRow : Row := ⟨0, none, none, none, 0, none⟩

/-- Placeholder enriched row for out-of-range `List.getD`. -/
def defaultIndRow : IndRow := ⟨defaultRow, none, none, none⟩

/-- The function `calculate_indicators` (src/main.py lines 22-50): keep
every acquired row and append the three indicator columns computed from
the closing-price column. -/
def calculate_indicators (rows : List Row) : List IndRow :=
  let C := rows.map Row.close
  (List.range rows.length).map (fun i =>
    { base := rows.getD i defaultRow
      sma := (SMA_50 C).getD i none
      ema := (EMA_21 C).getD i none
      vol := (Volatility_50 C).getD i none })

/-- Row predicate of `DataFrame.dropna()`: the row is kept iff every
column — the acquired market columns and the three indicators — is
present. -/
def dropnaRow (r : IndRow) : Bool :=
  r.base.openV.isSome && r.base.highV.isSome && r.base.lowV.isSome &&
    r.base.volume.isSome && r.sma.isSome && r.ema.isSome && r.vol.isSome

/-- The `data.dropna()` step of `analyze_performance` (src/main.py
line 60). -/
def dropna (rs : List IndRow) : List IndRow := rs.filter dropnaRow

/-- The `DataFrame.tail(k)` slice: last `k` rows (all of them when fewer
than `k` remain), original ascending order preserved. -/
def tailRows (k : ℕ) (rs : List IndRow) : List IndRow := rs.drop (rs.length - k)

/-- The function `analyze_performance` (src/main.py lines 52-64): drop
incomplete rows, then display the last five; the returned list is the
displayed table (an empty list is pandas' empty-frame display, not an
error). -/
def analyze_performance (rs : List IndRow) : List IndRow := tailRows 5 (dropna rs)

/-! ### List helper lemmas -/

lemma getD_map_range {α : Type} (n i : ℕ) (f : ℕ → α) (d : α) (h : i < n) :
    ((List.range n).map f).getD i d = f i := by
  simp [List.getD_eq_getElem?_getD, List.getElem?_range h]

lemma getD_map_lt {α β : Type} (f : α → β) (l : List α) (i : ℕ) (d : β) (d₀ : α)
    (h : i < l.length) : (l.map f).getD i d = f (l.getD i d₀) := by
  simp [List.getD_eq_getElem?_getD, List.getElem?_eq_getElem h]

lemma self_eq_map_range_getD {α : Type} (l : List α) (d : α) :
    (List.range l.length).map (fun i => l.getD i d) = l := by
  apply List.ext_getElem?
  intro n
  by_cases h : n < l.length
  · simp [List.getElem?_range h, List.getD_eq_getElem?_getD, List.getElem?_eq_getElem h]
  · have h1 : l.length ≤ n := Nat.le_of_not_lt h
    rw [List.getElem?_eq_none h1, List.getElem?_eq_none (by simpa using h1)]

lemma range'_take : ∀ (k s m : ℕ), (List.range' s m).take k = List.range' s (min k m)
  | 0, _, _ => by simp
  | _ + 1, _, 0 => by simp
  | k + 1, s, m + 1 => by
    rw [List.range'_succ, List.take_succ_cons, range'_take k (s + 1) m,
      Nat.succ_min_succ, List.range'_succ]

lemma range'_drop : ∀ (k s m : ℕ), (List.range' s m).drop k = List.range' (s + k) (m - k)
  | 0, _, _ => by simp
  | _ + 1, _, 0 => by simp
  | k + 1, s, m + 1 => by
    rw [List.range'_succ, List.drop_succ_cons, range'_drop k (s + 1) m]
    have e1 : s + 1 + k = s + (k + 1) := by omega
    have e2 : m - k = m + 1 - (k + 1) := by omega
    rw [e1, e2]

lemma filterMap_eq_map_of_some {α β : Type} (g : α → Option β) (r : α → β) :
    ∀ l : List α, (∀ a ∈ l, g a = some (r a)) → l.filterMap g = l.map r
  | [], _ => rfl
  | a :: l, h => by
    rw [List.filterMap_cons_some (h a (List.mem_cons_self a l)), List.map_cons,
      filterMap_eq_map_of_some g r l (fun x hx => h x (List.mem_cons_of_mem a hx))]

lemma countP_range_le (k : ℕ) : ∀ n : ℕ,
    (List.range n).countP (fun i => decide (k ≤ i)) = n - k
  | 0 => by simp
  | n + 1 => by
    rw [List.range_succ, List.countP_append, countP_range_le k n, List.countP_singleton]
    by_cases h : k ≤ n
    · rw [if_pos (by simpa using h)]
      omega
    · rw [if_neg (by simpa using h)]
      omega

/-! ### Per-index evaluation of the three indicator columns -/

lemma rollingWindow_map_range (w n : ℕ) (g : ℕ → Option ℚ) (i : ℕ) (h : i < n) :
    rollingWindow w ((List.range n).map g) i =
      (List.range' (i + 1 - w) (i + 1 - (i + 1 - w))).map g := by
  unfold rollingWindow
  rw [← List.map_take, ← List.map_drop]
  congr 1
  rw [List.range_eq_range', range'_take, Nat.min_eq_left (by omega : i + 1 ≤ n),
    range'_drop, Nat.zero_add]

lemma sma_at (C : List ℚ) (i : ℕ) (h : i < C.length) :
    (SMA_50 C).getD i none =
      if 49 ≤ i then some (meanQ ((C.drop (i - 49)).take 50)) else none := by
  have hlen : (C.map some).length = C.length := by simp
  unfold SMA_50 rollingCol
  rw [hlen, getD_map_range _ _ _ _ h]
  unfold rollingAt rollingWindow
  rw [← List.map_take, ← List.map_drop, List.filterMap_map]
  have hid : (id ∘ (some : ℚ → Option ℚ)) = some := rfl
  rw [hid, List.filterMap_some]
  have hlv : ((C.take (i + 1)).drop (i + 1 - 50)).length = (i + 1) - (i + 1 - 50) := by
    rw [List.length_drop, List.length_take]
    omega
  by_cases h49 : 49 ≤ i
  · rw [if_pos (by omega : 50 ≤ ((C.take (i + 1)).drop (i + 1 - 50)).length),
      if_pos h49]
    have h1 : i + 1 - 50 = i - 49 := by omega
    have h2 : i + 1 = (i - 49) + 50 := by omega
    rw [h1, h2, ← List.take_drop]
  · rw [if_neg (by omega : ¬ 50 ≤ ((C.take (i + 1)).drop (i + 1 - 50)).length),
      if_neg h49]

lemma vol_at (C : List ℚ) (i : ℕ) (h : i < C.length) :
    (Volatility_50 C).getD i none =
      if 50 ≤ i then
        some (sampleVarQ ((List.range' (i - 49) 50).map
          (fun j => C.getD j 0 / C.getD (j - 1) 0 - 1)))
      else none := by
  have hlen : (pctChange C).length = C.length := by simp [pctChange]
  unfold Volatility_50 rollingCol
  rw [hlen, getD_map_range _ _ _ _ h]
  unfold rollingAt
  unfold pctChange
  rw [rollingWindow_map_range 50 C.length _ i h, List.filterMap_map]
  have hid : (id ∘ fun j : ℕ =>
      if j = 0 then none else some (C.getD j 0 / C.getD (j - 1) 0 - 1)) =
      (fun j : ℕ => if j = 0 then none else some (C.getD j 0 / C.getD (j - 1) 0 - 1)) := rfl
  rw [hid]
  by_cases h50 : 50 ≤ i
  · have hs : i + 1 - 50 = i - 49 := by omega
    have hL : i + 1 - (i + 1 - 50) = 50 := by omega
    rw [hs] at hL ⊢
    rw [hL]
    rw [filterMap_eq_map_of_some _ (fun j => C.getD j 0 / C.getD (j - 1) 0 - 1) _ ?_]
    · rw [if_pos (by simp), if_pos h50]
    · intro j hj
      rcases List.mem_range'.1 hj with ⟨t, _, rfl⟩
      have hne : i - 49 + 1 * t ≠ 0 := by omega
      simp only [if_neg hne]
  · have hs : i + 1 - 50 = 0 := by omega
    rw [hs, Nat.sub_zero, List.range'_succ]
    rw [List.filterMap_cons_none (by simp)]
    rw [filterMap_eq_map_of_some _ (fun j => C.getD j 0 / C.getD (j - 1) 0 - 1) _ ?_]
    · rw [if_neg (by simp; omega), if_neg h50]
    · intro j hj
      rcases List.mem_range'.1 hj with ⟨t, _, rfl⟩
      have hne : 1 + 1 * t ≠ 0 := by omega
      simp only [if_neg hne]

/-! ### Specification-side definitions (transcribed from spec.md) -/

/-- Spec 4.1: the arithmetic mean of a window. -/
def specMean (l : List ℚ) : ℚ := l.sum / (l.length : ℚ)

/-- Spec 4.1: the trailing inclusive 50-element window `C[i-49 .. i]`. -/
def specSmaWindow (C : List ℚ) (i : ℕ) : List ℚ := (C.drop (i - 49)).take 50

/-- Spec 4.3: single-period return `r[j] = C[j]/C[j-1] - 1`. -/
def specReturn (C : List ℚ) (j : ℕ) : ℚ := C.getD j 0 / C.getD (j - 1) 0 - 1

/-- Spec 4.3: the window of 50 single-period returns `r[i-49], ..., r[i]`. -/
def specRetWindow (C : List ℚ) (i : ℕ) : List ℚ :=
  (List.range' (i - 49) 50).map (specReturn C)

/-- Spec 4.3: sample variance with divisor `n-1` (not `n`). -/
def specSampleVar (l : List ℚ) : ℚ :=
  (l.map (fun x => (x - specMean l) ^ 2)).sum / ((l.length : ℚ) - 1)

/-- Spec 4.3: sample standard deviation with divisor `n-1`.  Marked
noncomputable only because an exact real square root is; every other
definition in this file is executable. -/
noncomputable def specSampleStd (l : List ℚ) : ℝ := Real.sqrt ((specSampleVar l : ℚ) : ℝ)

/-- The displayed `Volatility_50` value at index `i`: the square root of
the sample variance carried by the embedded column. -/
noncomputable def volStd (C : List ℚ) (i : ℕ) : Option ℝ :=
  ((Volatility_50 C).getD i none).map (fun q => Real.sqrt ((q : ℚ) : ℝ))

/-- Spec 4.2: the weighted numerator `sum (1-a)^(i-j) * C[j]` over
`j = 0 .. i` of the bias-adjusted exponential weighting. -/
def specEwmNum (a : ℚ) (C : List ℚ) (i : ℕ) : ℚ :=
  ((List.range (i + 1)).map (fun j => (1 - a) ^ (i - j) * C.getD j 0)).sum

/-- Spec 4.2: the weight sum `sum (1-a)^(i-j)` over `j = 0 .. i`. -/
def specEwmDen (a : ℚ) (i : ℕ) : ℚ :=
  ((List.range (i + 1)).map (fun j => (1 - a) ^ (i - j))).sum

/-- Spec 4.2: the renormalized weighted average of `C[0..i]` with weights
`(1-a)^(i-j)` — the adjusted weighting convention, normalized by the sum
of the finitely many weights rather than the infinite-horizon sum. -/
def specEwm (a : ℚ) (C : List ℚ) (i : ℕ) : ℚ := specEwmNum a C i / specEwmDen a i

/-! ### Evaluation of the EMA column -/

lemma ewmScan_length (a : ℚ) : ∀ (xs : List ℚ) (num den : ℚ),
    (ewmScan a xs num den).length = xs.length
  | [], _, _ => rfl
  | x :: xs, num, den => by
    simp only [ewmScan, List.length_cons, ewmScan_length a xs]

lemma specEwmNum_zero (a : ℚ) (C : List ℚ) : specEwmNum a C 0 = C.getD 0 0 := by
  have h1 : List.range 1 = [0] := rfl
  simp [specEwmNum, h1]

lemma specEwmDen_zero (a : ℚ) : specEwmDen a 0 = 1 := by
  simp [specEwmDen]

lemma specEwm_zero (a : ℚ) (C : List ℚ) : specEwm a C 0 = C.getD 0 0 := by
  simp [specEwm, specEwmNum_zero, specEwmDen_zero]

lemma specEwmNum_cons (a x : ℚ) (xs : List ℚ) (i : ℕ) :
    specEwmNum a (x :: xs) (i + 1) = (1 - a) ^ (i + 1) * x + specEwmNum a xs i := by
  unfold specEwmNum
  rw [List.range_succ_eq_map, List.map_cons, List.map_map, List.sum_cons]
  congr 2
  apply List.map_congr_left
  intro j _
  show (1 - a) ^ (i + 1 - (j + 1)) * (x :: xs).getD (j + 1) 0 = (1 - a) ^ (i - j) * xs.getD j 0
  rw [List.getD_cons_succ, Nat.succ_sub_succ]

lemma specEwmDen_cons (a : ℚ) (i : ℕ) :
    specEwmDen a (i + 1) = (1 - a) ^ (i + 1) + specEwmDen a i := by
  unfold specEwmDen
  rw [List.range_succ_eq_map, List.map_cons, List.map_map, List.sum_cons]
  congr 2
  apply List.map_congr_left
  intro j _
  show (1 - a) ^ (i + 1 - (j + 1)) = (1 - a) ^ (i - j)
  rw [Nat.succ_sub_succ]

lemma ewmScan_getD (a : ℚ) : ∀ (xs : List ℚ) (num den : ℚ) (i : ℕ), i < xs.length →
    (ewmScan a xs num den).getD i (0, 0) =
      ((1 - a) ^ (i + 1) * num + specEwmNum a xs i,
       (1 - a) ^ (i + 1) * den + specEwmDen a i)
  | [], _, _, i, h => absurd h (by simp)
  | x :: xs, num, den, 0, _ => by
    show ((1 - a) * num + x, (1 - a) * den + 1) = _
    rw [specEwmNum_zero, specEwmDen_zero, List.getD_cons_zero]
    simp only [Prod.mk.injEq]
    constructor <;> ring
  | x :: xs, num, den, i + 1, h => by
    have h' : i < xs.length := by simpa using h
    show (ewmScan a xs ((1 - a) * num + x) ((1 - a) * den + 1)).getD i (0, 0) = _
    rw [ewmScan_getD a xs _ _ i h', specEwmNum_cons, specEwmDen_cons]
    simp only [Prod.mk.injEq]
    constructor <;> ring

lemma specEwmDen_pos (a : ℚ) (ha : 0 < 1 - a) (i : ℕ) : 0 < specEwmDen a i := by
  unfold specEwmDen
  apply List.sum_pos
  · intro x hx
    rcases List.mem_map.1 hx with ⟨j, _, rfl⟩
    exact pow_pos ha _
  · simp

lemma ema_at (C : List ℚ) (i : ℕ) (h : i < C.length) :
    (EMA_21 C).getD i none = some (specEwm (1 / 22) C i) := by
  have ha : (1 : ℚ) / (1 + 21) = 1 / 22 := by norm_num
  unfold EMA_21 ewmMean
  rw [ha]
  have hlen : i < (ewmScan (1 / 22) C 0 0).length := by
    rw [ewmScan_length]
    exact h
  rw [getD_map_lt _ _ _ _ (0, 0) hlen, ewmScan_getD (1 / 22) C 0 0 i h]
  have hpos : 0 < specEwmDen (1 / 22) i := specEwmDen_pos _ (by norm_num) i
  simp only [mul_zero, zero_add]
  rw [if_neg (ne_of_gt hpos)]
  rfl

/-! ### Frame-level lemmas -/

lemma getD_mem {α : Type} (l : List α) (i : ℕ) (d : α) (h : i < l.length) :
    l.getD i d ∈ l := by
  rw [List.getD_eq_getElem?_getD, List.getElem?_eq_getElem h]
  exact List.getElem_mem h

lemma calculate_indicators_length (rows : List Row) :
    (calculate_indicators rows).length = rows.length := by
  simp [calculate_indicators]

/-- Proof-layer name for the enriched row built by `calculate_indicators`
at index `i` (definitionally the function mapped over the row indices). -/
def enrichAt (rows : List Row) (i : ℕ) : IndRow :=
  { base := rows.getD i defaultRow
    sma := (SMA_50 (rows.map Row.close)).getD i none
    ema := (EMA_21 (rows.map Row.close)).getD i none
    vol := (Volatility_50 (rows.map Row.close)).getD i none }

lemma calculate_indicators_eq (rows : List Row) :
    calculate_indicators rows = (List.range rows.length).map (enrichAt rows) := rfl

lemma calculate_indicators_getD (rows : List Row) (i : ℕ) (h : i < rows.length) :
    (calculate_indicators rows).getD i defaultIndRow = enrichAt rows i := by
  rw [calculate_indicators_eq]
  exact getD_map_range _ _ _ _ h

/-- The predicate of a complete acquired observation: every market
column of the row is present. -/
def completeRow (r : Row) : Prop :=
  r.openV.isSome ∧ r.highV.isSome ∧ r.lowV.isSome ∧ r.volume.isSome

instance (r : Row) : Decidable (completeRow r) := by
  unfold completeRow
  infer_instance

lemma dropnaRow_enrichAt (rows : List Row) (i : ℕ) (h : i < rows.length)
    (hc : ∀ r ∈ rows, completeRow r) :
    dropnaRow (enrichAt rows i) = decide (50 ≤ i) := by
  obtain ⟨ho, hh, hl, hv⟩ := hc _ (getD_mem rows i defaultRow h)
  simp only [List.getD_eq_getElem?_getD] at ho hh hl hv
  have hlen : i < (rows.map Row.close).length := by simpa using h
  unfold enrichAt dropnaRow
  rw [sma_at _ i hlen, vol_at _ i hlen, ema_at _ i hlen]
  by_cases h50 : 50 ≤ i
  · have h49 : 49 ≤ i := by omega
    simp [ho, hh, hl, hv, h50, h49]
  · by_cases h49 : 49 ≤ i
    · simp [ho, hh, hl, hv, h50, h49]
    · simp [ho, hh, hl, hv, h50, h49]

lemma dropna_calc_length (rows : List Row) (hc : ∀ r ∈ rows, completeRow r) :
    (dropna (calculate_indicators rows)).length = rows.length - 50 := by
  unfold dropna
  rw [← List.countP_eq_length_filter, calculate_indicators_eq, List.countP_map,
    ← countP_range_le 50 rows.length]
  apply List.countP_congr
  intro i hi
  have h : i < rows.length := List.mem_range.1 hi
  show dropnaRow (enrichAt rows i) = true ↔ decide (50 ≤ i) = true
  rw [dropnaRow_enrichAt rows i h hc]

/-! ### The main execution block (src/main.py lines 71-104)

Console output is modelled as a list of events, one per `print` call of
the script, carrying the data interpolated into the printed text.  Wall
clock readings are not representable; the act of printing the final
`Total execution time` line is modelled by the `timing` event.  `mainRun`
is a total function of the acquisition result, so a run that produces a
value models a process that completes without raising. -/

/-- Constant `ticker = 'NVDA'` of the main block. -/
def ticker : String := "NVDA"

/-- Constant `start = '2020-01-01'` of the main block. -/
def startDate : String := "2020-01-01"

/-- Constant `end = '2025-01-01'` of the main block (`end` is a Lean
keyword, hence the name). -/
def endDate : String := "2025-01-01"

/-- One console event per `print` call of the script. -/
inductive Event where
  | fetching (tk sd ed : String)
  | fetched
  | calcStart
  | calcDone
  | analysisHeader
  | displayTable (rows : List IndRow)
  | noData (msg : String)
  | timing
deriving DecidableEq

/-- The exact text printed by the empty-result branch (src/main.py
line 94), as a function of the ticker it interpolates. -/
def noDataMessage (tk : String) : String :=
  "Could not download data for " ++ tk ++ ". Please check the symbol and date range."

/-- Substring test: `needle` occurs contiguously in `hay`.  Used to state
what a printed message does and does not identify. -/
def containsSub (hay needle : String) : Bool :=
  (List.range (hay.length + 1)).any
    (fun k => (hay.data.drop k).take needle.length == needle.data)

/-- The main execution block: fetch, test for an empty result, then
either run the computation and reporting stages or print the no-data
message; always finish with the elapsed-time report. -/
def mainRun (fetched : List Row) : List Event × Option (List IndRow) :=
  if fetched.isEmpty then
    ([Event.fetching ticker startDate endDate, Event.fetched,
      Event.noData (noDataMessage ticker), Event.timing], none)
  else
    let ind := calculate_indicators fetched
    let fin := analyze_performance ind
    ([Event.fetching ticker startDate endDate, Event.fetched,
      Event.calcStart, Event.calcDone, Event.analysisHeader,
      Event.displayTable fin, Event.timing], some fin)

/-! ### Division with an explicit error branch (for claim C10)

In the embedding a rational division by zero is total (`x / 0 = 0`), so
to state that the return computation never divides by zero we also give
a checked variant of `pct_change` whose division reports its error
branch, and prove the two agree on positive price series. -/

/-- Division that makes the division-by-zero branch explicit. -/
def divE (a b : ℚ) : Except String ℚ :=
  if b = 0 then .error "division by zero" else .ok (a / b)

/-- Error-propagating map over a list of indices. -/
def mapE (f : ℕ → Except String (Option ℚ)) : List ℕ → Except String (List (Option ℚ))
  | [] => .ok []
  | i :: is => do
    let r ← f i
    let rs ← mapE f is
    .ok (r :: rs)

/-- The checked `pct_change`: same arithmetic as `pctChange`, with the
division routed through `divE`. -/
def pctChangeE (C : List ℚ) : Except String (List (Option ℚ)) :=
  mapE (fun i => if i = 0 then .ok none else
      (divE (C.getD i 0) (C.getD (i - 1) 0)).map (fun q => some (q - 1)))
    (List.range C.length)

lemma mapE_ok (f : ℕ → Except String (Option ℚ)) (g : ℕ → Option ℚ) :
    ∀ l : List ℕ, (∀ i ∈ l, f i = .ok (g i)) → mapE f l = .ok (l.map g)
  | [], _ => rfl
  | i :: is, h => by
    simp only [mapE, h i (List.mem_cons_self i is),
      mapE_ok f g is (fun x hx => h x (List.mem_cons_of_mem i hx)), List.map_cons]
    rfl

/-! ### Column presentation and definedness lemmas -/

lemma SMA_50_eq (C : List ℚ) :
    SMA_50 C = (List.range C.length).map (rollingAt 50 meanQ (C.map some)) := by
  unfold SMA_50 rollingCol
  rw [List.length_map]

lemma Volatility_50_eq (C : List ℚ) :
    Volatility_50 C = (List.range C.length).map (rollingAt 50 sampleVarQ (pctChange C)) := by
  unfold Volatility_50 rollingCol
  rw [show (pctChange C).length = C.length from by simp [pctChange]]

lemma sma_isSome (C : List ℚ) (i : ℕ) (h : i < C.length) :
    ((SMA_50 C).getD i none).isSome = decide (49 ≤ i) := by
  rw [sma_at C i h]
  by_cases h49 : 49 ≤ i <;> simp [h49]

lemma vol_isSome (C : List ℚ) (i : ℕ) (h : i < C.length) :
    ((Volatility_50 C).getD i none).isSome = decide (50 ≤ i) := by
  rw [vol_at C i h]
  by_cases h50 : 50 ≤ i <;> simp [h50]

lemma countP_isSome_map_range (n k : ℕ) (f : ℕ → Option ℚ)
    (h : ∀ i, i < n → (f i).isSome = decide (k ≤ i)) :
    ((List.range n).map f).countP (fun o => o.isSome) = n - k := by
  rw [List.countP_map, ← countP_range_le k n]
  apply List.countP_congr
  intro i hi
  show (f i).isSome = true ↔ decide (k ≤ i) = true
  rw [h i (List.mem_range.1 hi)]

/-! ### Claims -/

/-- C1: For every closing-price sequence `C` of length `n` with all
prices positive, the volatility column is defined exactly at indices
`i ≥ 50` (hence at exactly `n - 50` rows, where the truncated `ℕ`
subtraction realizes `max (0, n - 50)`), and at each defined index its
displayed value is the sample standard deviation (divisor `n-1`) of the
50 single-period returns `r[j] = C[j]/C[j-1] - 1` for `j ∈ [i-49, i]`;
since `i - 49 ≥ 1` there, the undefined `r[0]` never contributes. -/
theorem C1_volatility_contract (C : List ℚ) (_hpos : ∀ x ∈ C, 0 < x) :
    (∀ i, i < C.length → (((Volatility_50 C).getD i none).isSome ↔ 50 ≤ i)) ∧
    (Volatility_50 C).countP (fun o => o.isSome) = C.length - 50 ∧
    (∀ i, i < C.length → 50 ≤ i →
      volStd C i = some (specSampleStd (specRetWindow C i))) := by
  refine ⟨?_, ?_, ?_⟩
  · intro i h
    rw [show (((Volatility_50 C).getD i none).isSome : Prop) =
        (((Volatility_50 C).getD i none).isSome = true) from rfl, vol_isSome C i h]
    simp
  · rw [Volatility_50_eq]
    apply countP_isSome_map_range C.length 50
    intro i h
    have hv := vol_isSome C i h
    rw [Volatility_50_eq, getD_map_range _ _ _ _ h] at hv
    exact hv
  · intro i h h50
    unfold volStd
    rw [vol_at C i h, if_pos h50]
    rfl

/-- C1 witness: a concrete 51-row positive price series; index 50 is
defined and carries the spec-side sample standard deviation. -/
theorem C1_volatility_contract_witness :
    (((Volatility_50 (List.replicate 51 (100 : ℚ))).getD 50 none).isSome ↔ 50 ≤ 50) ∧
    volStd (List.replicate 51 (100 : ℚ)) 50 =
      some (specSampleStd (specRetWindow (List.replicate 51 (100 : ℚ)) 50)) :=
  ⟨(C1_volatility_contract (List.replicate 51 (100 : ℚ))
      (by decide)).1 50 (by decide),
   (C1_volatility_contract (List.replicate 51 (100 : ℚ))
      (by decide)).2.2 50 (by decide) (by decide)⟩

/-- C2: For every closing-price sequence of length `n ≥ 1` the EMA
column is defined at every index, `ema[0] = C[0]`, and every `ema[i]`
equals the bias-adjusted weighted average of `C[0..i]` with weights
`(1-alpha)^(i-j)` renormalized by the finite weight sum, where
`alpha = 1/(1+21) = 1/22`. -/
theorem C2_ema_contract (C : List ℚ) (h0 : 0 < C.length) :
    (∀ i, i < C.length → (EMA_21 C).getD i none = some (specEwm (1 / 22) C i)) ∧
    (EMA_21 C).length = C.length ∧
    (∀ i, i < C.length → ((EMA_21 C).getD i none).isSome) ∧
    (EMA_21 C).getD 0 none = some (C.getD 0 0) := by
  refine ⟨fun i h => ema_at C i h, ?_, ?_, ?_⟩
  · unfold EMA_21 ewmMean
    rw [List.length_map, ewmScan_length]
  · intro i h
    rw [ema_at C i h]
    rfl
  · rw [ema_at C 0 h0, specEwm_zero]

/-- C2 witness: a two-row series; both rows defined, `ema[0] = C[0]`,
and `ema[1]` equals the renormalized weighted average. -/
theorem C2_ema_contract_witness :
    (EMA_21 [(2 : ℚ), 4]).getD 0 none = some (([(2 : ℚ), 4]).getD 0 0) ∧
    (EMA_21 [(2 : ℚ), 4]).getD 1 none = some (specEwm (1 / 22) [(2 : ℚ), 4] 1) :=
  ⟨(C2_ema_contract [(2 : ℚ), 4] (by decide)).2.2.2,
   (C2_ema_contract [(2 : ℚ), 4] (by decide)).1 1 (by decide)⟩

/-- C3: For every closing-price sequence `C` of length `n`, the SMA
column is defined exactly at indices `i ≥ 49` (hence at exactly `n - 49`
rows, the truncated `ℕ` subtraction realizing `max (0, n - 49)`), and at
each defined index it is the arithmetic mean of the trailing inclusive
50-element window `C[i-49 .. i]`. -/
theorem C3_sma_contract (C : List ℚ) :
    (∀ i, i < C.length → (((SMA_50 C).getD i none).isSome ↔ 49 ≤ i)) ∧
    (SMA_50 C).countP (fun o => o.isSome) = C.length - 49 ∧
    (∀ i, i < C.length → 49 ≤ i →
      (SMA_50 C).getD i none = some (specMean (specSmaWindow C i))) := by
  refine ⟨?_, ?_, ?_⟩
  · intro i h
    rw [show (((SMA_50 C).getD i none).isSome : Prop) =
        (((SMA_50 C).getD i none).isSome = true) from rfl, sma_isSome C i h]
    simp
  · rw [SMA_50_eq]
    apply countP_isSome_map_range C.length 49
    intro i h
    have hs := sma_isSome C i h
    rw [SMA_50_eq, getD_map_range _ _ _ _ h] at hs
    exact hs
  · intro i h h49
    rw [sma_at C i h, if_pos h49]
    rfl

/-- C3 witness: a concrete 50-row series; index 48 is undefined, index
49 is defined and equals the window mean. -/
theorem C3_sma_contract_witness :
    (((SMA_50 (List.replicate 50 (100 : ℚ))).getD 48 none).isSome ↔ 49 ≤ 48) ∧
    (SMA_50 (List.replicate 50 (100 : ℚ))).getD 49 none =
      some (specMean (specSmaWindow (List.replicate 50 (100 : ℚ)) 49)) :=
  ⟨(C3_sma_contract (List.replicate 50 (100 : ℚ))).1 48 (by decide),
   (C3_sma_contract (List.replicate 50 (100 : ℚ))).2.2 49 (by decide) (by decide)⟩

/-- C8: No look-ahead — two closing-price sequences that agree on all
indices `j ≤ i` (both extending past `i`) produce the same SMA cell at
`i`, defined with equal value or undefined in both. -/
theorem C8_sma_no_lookahead (C₁ C₂ : List ℚ) (i : ℕ) (h1 : i < C₁.length)
    (h2 : i < C₂.length) (hagree : C₁.take (i + 1) = C₂.take (i + 1)) :
    (SMA_50 C₁).getD i none = (SMA_50 C₂).getD i none := by
  rw [SMA_50_eq, getD_map_range _ _ _ _ h1, SMA_50_eq, getD_map_range _ _ _ _ h2]
  unfold rollingAt rollingWindow
  rw [← List.map_take, ← List.map_take, hagree]

/-- C8 witness: two series agreeing up to index 2 but diverging after. -/
theorem C8_sma_no_lookahead_witness :
    (SMA_50 [(1 : ℚ), 2, 3, 9]).getD 2 none = (SMA_50 [(1 : ℚ), 2, 3, 7, 8]).getD 2 none :=
  C8_sma_no_lookahead [(1 : ℚ), 2, 3, 9] [(1 : ℚ), 2, 3, 7, 8] 2
    (by decide) (by decide) (by decide)

/-- C4: For an enriched series of `n` complete rows, the
filtering-and-reporting stage keeps exactly `n - 50` rows (truncated
subtraction realizing `max (0, n - 50)`); the kept rows are exactly the
rows whose three indicators are all defined and every kept row has them
all defined; the reported table is the trailing `min 5 (n - 50)` of the
kept rows, a suffix of them in their original ascending order. -/
theorem C4_filter_report (rows : List Row) (hc : ∀ r ∈ rows, completeRow r) :
    (dropna (calculate_indicators rows)).length = rows.length - 50 ∧
    dropna (calculate_indicators rows) =
      (calculate_indicators rows).filter
        (fun e => e.sma.isSome && e.ema.isSome && e.vol.isSome) ∧
    (∀ e ∈ dropna (calculate_indicators rows),
      e.sma.isSome ∧ e.ema.isSome ∧ e.vol.isSome) ∧
    analyze_performance (calculate_indicators rows) =
      (dropna (calculate_indicators rows)).drop
        ((dropna (calculate_indicators rows)).length - 5) ∧
    (analyze_performance (calculate_indicators rows)).length =
      min 5 (rows.length - 50) ∧
    (dropna (calculate_indicators rows)).take
        ((dropna (calculate_indicators rows)).length - 5) ++
      analyze_performance (calculate_indicators rows) =
      dropna (calculate_indicators rows) := by
  refine ⟨dropna_calc_length rows hc, ?_, ?_, rfl, ?_, ?_⟩
  · unfold dropna
    apply List.filter_congr
    intro e he
    rw [calculate_indicators_eq] at he
    rcases List.mem_map.1 he with ⟨i, hi, rfl⟩
    have h : i < rows.length := List.mem_range.1 hi
    obtain ⟨ho, hh, hl, hv⟩ := hc _ (getD_mem rows i defaultRow h)
    unfold dropnaRow enrichAt
    simp only [List.getD_eq_getElem?_getD] at ho hh hl hv ⊢
    rw [ho, hh, hl, hv]
    simp
  · intro e he
    have hb := (List.mem_filter.1 he).2
    unfold dropnaRow at hb
    simp only [Bool.and_eq_true] at hb
    exact ⟨hb.1.1.2, hb.1.2, hb.2⟩
  · show (tailRows 5 (dropna (calculate_indicators rows))).length = _
    unfold tailRows
    rw [List.length_drop, dropna_calc_length rows hc]
    omega
  · exact List.take_append_drop _ _

/-- C4 witness: 56 complete constant-price rows; the filtered table has
6 rows and the reported tail 5. -/
theorem C4_filter_report_witness :
    (dropna (calculate_indicators ((List.range 56).map
      (fun j => ⟨j, some 1, some 1, some 1, 100, some 1⟩)))).length = 56 - 50 ∧
    (analyze_performance (calculate_indicators ((List.range 56).map
      (fun j => ⟨j, some 1, some 1, some 1, 100, some 1⟩)))).length = min 5 (56 - 50) := by
  have hc : ∀ r ∈ (List.range 56).map
      (fun j => (⟨j, some 1, some 1, some 1, 100, some 1⟩ : Row)), completeRow r := by
    decide
  have hlen : ((List.range 56).map
      (fun j => (⟨j, some 1, some 1, some 1, 100, some 1⟩ : Row))).length = 56 := by
    decide
  refine ⟨?_, ?_⟩
  · rw [(C4_filter_report _ hc).1, hlen]
  · rw [(C4_filter_report _ hc).2.2.2.2.1, hlen]

/-- C6 (implicit): `dropna` filters on every column, not only the three
indicators — a row whose `Volume` cell is missing at an index `i ≥ 50`
has all three indicators defined yet is removed from the filtered
table. -/
theorem C6_dropna_any_column (rows : List Row) (i : ℕ) (h : i < rows.length)
    (h50 : 50 ≤ i) (hv : (rows.getD i defaultRow).volume = none) :
    ((calculate_indicators rows).getD i defaultIndRow).sma.isSome ∧
    ((calculate_indicators rows).getD i defaultIndRow).ema.isSome ∧
    ((calculate_indicators rows).getD i defaultIndRow).vol.isSome ∧
    (calculate_indicators rows).getD i defaultIndRow ∉
      dropna (calculate_indicators rows) := by
  rw [calculate_indicators_getD rows i h]
  have hlen : i < (rows.map Row.close).length := by simpa using h
  refine ⟨?_, ?_, ?_, ?_⟩
  · show ((SMA_50 (rows.map Row.close)).getD i none).isSome
    rw [sma_at _ i hlen, if_pos (by omega : 49 ≤ i)]
    rfl
  · show ((EMA_21 (rows.map Row.close)).getD i none).isSome
    rw [ema_at _ i hlen]
    rfl
  · show ((Volatility_50 (rows.map Row.close)).getD i none).isSome
    rw [vol_at _ i hlen, if_pos h50]
    rfl
  · intro hmem
    have hb := (List.mem_filter.1 hmem).2
    unfold dropnaRow enrichAt at hb
    have hv2 := hv
    simp only [List.getD_eq_getElem?_getD] at hv2
    simp [hv2] at hb

/-- C6 witness: 51 rows, complete except for a missing `Volume` at
index 50; that enriched row has all indicators defined yet is dropped. -/
theorem C6_dropna_any_column_witness :
    ((calculate_indicators ((List.range 51).map
        (fun j => ⟨j, some 1, some 1, some 1, 100,
          if j = 50 then none else some 1⟩))).getD 50 defaultIndRow).vol.isSome ∧
    (calculate_indicators ((List.range 51).map
        (fun j => ⟨j, some 1, some 1, some 1, 100,
          if j = 50 then none else some 1⟩))).getD 50 defaultIndRow ∉
      dropna (calculate_indicators ((List.range 51).map
        (fun j => ⟨j, some 1, some 1, some 1, 100,
          if j = 50 then none else some 1⟩))) :=
  ⟨(C6_dropna_any_column _ 50 (by decide) (by decide) (by decide)).2.2.1,
   (C6_dropna_any_column _ 50 (by decide) (by decide) (by decide)).2.2.2⟩

/-- C7: A series of at most 50 rows filters to the empty table, and the
reporting stage still evaluates — to the empty display — rather than
raising (both stage functions are total). -/
theorem C7_short_series (rows : List Row) (hn : rows.length ≤ 50) :
    dropna (calculate_indicators rows) = [] ∧
    analyze_performance (calculate_indicators rows) = [] := by
  have hfd : dropna (calculate_indicators rows) = [] := by
    unfold dropna
    rw [List.filter_eq_nil_iff]
    intro e he
    rw [calculate_indicators_eq] at he
    rcases List.mem_map.1 he with ⟨i, hi, rfl⟩
    have h : i < rows.length := List.mem_range.1 hi
    unfold dropnaRow enrichAt
    rw [vol_at _ i (by simpa using h), if_neg (by omega : ¬ 50 ≤ i)]
    simp
  refine ⟨hfd, ?_⟩
  show tailRows 5 (dropna (calculate_indicators rows)) = []
  rw [hfd]
  rfl

/-- C7 witness: a 10-row series filters to the empty table and reports
the empty display. -/
theorem C7_short_series_witness :
    dropna (calculate_indicators (List.replicate 10
      (⟨0, some 1, some 1, some 1, 100, some 1⟩ : Row))) = [] ∧
    analyze_performance (calculate_indicators (List.replicate 10
      (⟨0, some 1, some 1, some 1, 100, some 1⟩ : Row))) = [] :=
  C7_short_series _ (by decide)

/-- C10 (implicit): with every closing price positive, the checked
return computation never takes its division-by-zero branch — it returns
`ok` with exactly the values of the total embedding — and every return
at an index `i ≥ 1` is the well-defined rational `C[i]/C[i-1] - 1`. -/
theorem C10_no_division_by_zero (C : List ℚ) (hpos : ∀ x ∈ C, 0 < x) :
    pctChangeE C = .ok (pctChange C) ∧
    (∀ i, 1 ≤ i → i < C.length →
      (pctChange C).getD i none = some (C.getD i 0 / C.getD (i - 1) 0 - 1)) := by
  constructor
  · unfold pctChangeE pctChange
    apply mapE_ok
    intro i hi
    by_cases h0 : i = 0
    · simp [h0]
    · have h : i < C.length := List.mem_range.1 hi
      have h1 : i - 1 < C.length := by omega
      have hne : C.getD (i - 1) 0 ≠ 0 := ne_of_gt (hpos _ (getD_mem C (i - 1) 0 h1))
      simp only [List.getD_eq_getElem?_getD] at hne
      simp [h0, divE, hne, Except.map]
  · intro i h1 h
    unfold pctChange
    rw [getD_map_range _ _ _ _ h, if_neg (by omega : ¬ i = 0)]

/-- C10 witness: a concrete positive two-price series; the checked
variant returns `ok` and the return at index 1 is `3/2 - 1`. -/
theorem C10_no_division_by_zero_witness :
    pctChangeE [(2 : ℚ), 3] = .ok (pctChange [(2 : ℚ), 3]) ∧
    (pctChange [(2 : ℚ), 3]).getD 1 none =
      some (([(2 : ℚ), 3]).getD 1 0 / ([(2 : ℚ), 3]).getD 0 0 - 1) :=
  ⟨(C10_no_division_by_zero [(2 : ℚ), 3] (by decide)).1,
   (C10_no_division_by_zero [(2 : ℚ), 3] (by decide)).2 1 (by decide) (by decide)⟩

/-- C9: `calculate_indicators` only appends the three indicator fields:
the projection of the enriched series back onto the acquired rows is the
input itself — so every pre-existing column (in particular the closing
price and the date index), the row order and the row count are
unchanged, and no column is removed (removal or reordering is
unrepresentable in the enriched row type, which keeps the entire
acquired row intact). -/
theorem C9_frame_preservation (rows : List Row) :
    (calculate_indicators rows).map IndRow.base = rows ∧
    (calculate_indicators rows).length = rows.length ∧
    (calculate_indicators rows).map (fun e => e.base.close) = rows.map Row.close ∧
    (calculate_indicators rows).map (fun e => e.base.date) = rows.map Row.date := by
  have hbase : (calculate_indicators rows).map IndRow.base = rows := by
    rw [calculate_indicators_eq, List.map_map]
    exact self_eq_map_range_getD rows defaultRow
  refine ⟨hbase, calculate_indicators_length rows, ?_, ?_⟩
  · rw [show (fun e : IndRow => e.base.close) = (Row.close ∘ IndRow.base) from rfl,
      ← List.map_map, hbase]
  · rw [show (fun e : IndRow => e.base.date) = (Row.date ∘ IndRow.base) from rfl,
      ← List.map_map, hbase]

/-- C5, counterexample to the claim as stated: on an empty acquisition
the run emits exactly one no-data message, `noDataMessage ticker`, and
that message does not contain the requested start or end date as a
substring — so the emitted no-data outcome identifies the requested
instrument but not the requested date range (which it only refers to
generically: "Please check the symbol and date range."). -/
theorem C5_counterexample_no_date_range :
    mainRun [] =
      ([Event.fetching ticker startDate endDate, Event.fetched,
        Event.noData (noDataMessage ticker), Event.timing], none) ∧
    containsSub (noDataMessage ticker) startDate = false ∧
    containsSub (noDataMessage ticker) endDate = false := by
  refine ⟨rfl, ?_, ?_⟩ <;> decide

/-- C5 as amended: on an empty acquisition the computation and
reporting stages are never invoked (no `calcStart` event, no table, no
reported rows), a no-data message identifying the requested instrument
(it contains the ticker) and referring to the date range only
generically is emitted, the run completes normally (`mainRun` is total
and yields this value), and the elapsed time is still reported (the
trailing `timing` event). -/
theorem C5_empty_acquisition :
    mainRun [] =
      ([Event.fetching ticker startDate endDate, Event.fetched,
        Event.noData (noDataMessage ticker), Event.timing], none) ∧
    Event.calcStart ∉ (mainRun []).1 ∧
    Event.timing ∈ (mainRun []).1 ∧
    containsSub (noDataMessage ticker) ticker = true := by
  refine ⟨rfl, by decide, by decide, by decide⟩

end FinancialAnalyzer
